import Mathlib

/-!
Verification of the loan-comparison calculator (`src/main.rs`) against its
natural-language specification.

Modelling conventions:
* `Decimal` (the `rust_decimal::Decimal` type) is modelled as `ℚ`; the spec
  requires "exact decimal arithmetic" throughout the core, so rational
  arithmetic is the reference semantics (the crate's 28-digit mantissa
  rounding is abstracted away).
* Machine integers (`u16` credit scores, `u32` terms/exponents) are modelled
  as `Nat`; all values in play are far below the respective moduli
  (terms ≤ 30, so `years * 12 ≤ 360`; credit scores ≤ 65535), so no wrapping
  can occur and no explicit `% 2^w` is needed.
* The interactive I/O, YAML config loading and table printing are out of
  scope per the spec; the quote loop of `main` is embedded as a pure function
  from the lender list and validated inputs to the list of emitted rows plus
  the "no qualifying bank" report.
-/

abbrev Decimal := ℚ

/-- Loan categories, `enum LoanType` in the source. -/
inductive LoanType
  | Home
  | Car
  | Personal
deriving DecidableEq

/-- Lender record, `struct Bank` in the source: a name, one annual-rate range
per loan category (exact decimals), and a minimum qualifying credit score. -/
structure Bank where
  name : String
  home_loan_range : Decimal × Decimal
  car_loan_range : Decimal × Decimal
  personal_loan_range : Decimal × Decimal
  min_credit_score : Nat

/-- Rate-range selection per category, `Bank::get_rate_range`. -/
def Bank.get_rate_range (b : Bank) (loan_type : LoanType) : Decimal × Decimal :=
  match loan_type with
  | LoanType.Home => b.home_loan_range
  | LoanType.Car => b.car_loan_range
  | LoanType.Personal => b.personal_loan_range

/-- Body of the `while exp > 0` loop of `LoanCalculator::decimal_pow`: the
state is `(result, base, exp)`; each iteration multiplies `result` by `base`
when the low bit of `exp` is set, squares `base`, and shifts `exp` right. -/
def powLoop (result base : Decimal) (exp : Nat) : Decimal :=
  if exp = 0 then result
  else powLoop (if exp % 2 = 1 then result * base else result) (base * base) (exp / 2)
termination_by exp
decreasing_by exact Nat.div_lt_self (Nat.pos_of_ne_zero (by assumption)) (by norm_num)

/-- Embedding of `LoanCalculator::decimal_pow`: binary exponentiation over exact decimals,
accumulator initialised to `1`. -/
def decimal_pow (base : Decimal) (exp : Nat) : Decimal :=
  powLoop 1 base exp

/-- Fuel-indexed version of the `decimal_pow` loop, used to state termination
as a theorem: `none` means the fuel ran out before the loop exited. -/
def powLoopFuel : Nat → Decimal → Decimal → Nat → Option Decimal
  | 0, _, _, _ => none
  | fuel + 1, result, base, exp =>
    if exp = 0 then some result
    else powLoopFuel fuel (if exp % 2 = 1 then result * base else result) (base * base) (exp / 2)

/-- Embedding of `LoanCalculator::calculate_monthly_payment`: the fixed-rate amortization
formula with the `base_raised == 1` degenerate case returning straight-line
division. -/
def calculate_monthly_payment (principal annual_rate : Decimal) (years : Nat) : Decimal :=
  let monthly_rate := annual_rate / 100 / 12
  let num_payments := years * 12
  let base := 1 + monthly_rate
  let base_raised := decimal_pow base num_payments
  if base_raised = 1 then principal / (num_payments : Decimal)
  else principal * ((monthly_rate * base_raised) / (base_raised - 1))

/-- Embedding of `LoanCalculator::adjust_rate_for_credit`: the credit-score step function,
a top-down `match` on score guards. -/
def adjust_rate_for_credit (base_rate : Decimal) (credit_score : Nat) : Decimal :=
  if 800 ≤ credit_score then base_rate - 0.5
  else if 750 ≤ credit_score then base_rate - 0.25
  else if 700 ≤ credit_score then base_rate
  else if 650 ≤ credit_score then base_rate + 0.5
  else if 600 ≤ credit_score then base_rate + 1.0
  else base_rate + 2.0

/-- Embedding of `Iterator::min` over a list of naturals, `none` on the empty list. -/
def list_min : List Nat → Option Nat
  | [] => none
  | x :: xs =>
    match list_min xs with
    | none => some x
    | some m => some (min x m)

/-- Embedding of `LoanCalculator::get_min_credit_score`:
`banks.iter().map(|b| b.min_credit_score).min().unwrap_or(300)`. -/
def get_min_credit_score (banks : List Bank) : Nat :=
  (list_min (banks.map Bank.min_credit_score)).getD 300

/-- One output row of the comparison table, the data of a quote emitted by the
bank loop in `main`. -/
structure QuoteResult where
  name : String
  adjusted_rate : Decimal
  monthly_payment : Decimal
  total_interest : Decimal
  total_payment : Decimal
deriving DecidableEq

/-- The bank loop of `main` (lines 270–300): iterate the banks in configured
order, skip a bank when `credit_score < bank.min_credit_score`, and otherwise
emit one row computed from the midpoint base rate adjusted for credit. -/
def compute_quotes (banks : List Bank) (loan_type : LoanType) (loan_amount : Decimal)
    (loan_term : Nat) (credit_score : Nat) : List QuoteResult :=
  banks.filterMap (fun bank =>
    if credit_score < bank.min_credit_score then none
    else
      let r := bank.get_rate_range loan_type
      let base_rate := (r.1 + r.2) / 2
      let adjusted_rate := adjust_rate_for_credit base_rate credit_score
      let monthly_payment := calculate_monthly_payment loan_amount adjusted_rate loan_term
      let total_payment := monthly_payment * ((loan_term * 12 : Nat) : Decimal)
      let total_interest := total_payment - loan_amount
      some ⟨bank.name, adjusted_rate, monthly_payment, total_interest, total_payment⟩)

/-- The `has_qualifying_banks` flag of `main`: set iff the loop body ran past
the eligibility check for at least one bank. -/
def has_qualifying_banks (banks : List Bank) (credit_score : Nat) : Bool :=
  banks.any (fun bank => !(credit_score < bank.min_credit_score))

/-- Outcome of one run of the bank loop plus the zero-eligible reporting block
of `main`: the ordered quote rows, and — exactly when no bank qualified — a
report carrying the minimum required credit score (the printed guidance also
suggests a custom rate; the report's presence models that message). -/
structure RunOutcome where
  quotes : List QuoteResult
  no_qualifying_report : Option Nat
deriving DecidableEq

/-- Lines 268–306 of `main`: compute all quote rows, then, if the
`has_qualifying_banks` flag stayed false, report the minimum required score. -/
def run_calculator (banks : List Bank) (loan_type : LoanType) (loan_amount : Decimal)
    (loan_term : Nat) (credit_score : Nat) : RunOutcome :=
  { quotes := compute_quotes banks loan_type loan_amount loan_term credit_score
    no_qualifying_report :=
      if has_qualifying_banks banks credit_score then none
      else some (get_min_credit_score banks) }

/-- Concrete lender fixture used by witnesses: minimum score 700. -/
def bankA : Bank :=
  { name := "A", home_loan_range := (6, 8), car_loan_range := (7, 9)
    personal_loan_range := (10, 14), min_credit_score := 700 }

/-- Concrete lender fixture used by witnesses: minimum score 640. -/
def bankB : Bank :=
  { name := "B", home_loan_range := (5, 7), car_loan_range := (6, 8)
    personal_loan_range := (9, 13), min_credit_score := 640 }

/-- Decimal digits of a natural number, most significant first (the integer
part of Rust's `Display` rendering), with an explicit iteration bound: each
step strips the last digit, and `n + 1` steps always suffice for input `n`. -/
def natDigitsAux : Nat → Nat → List Char
  | 0, _ => []
  | fuel + 1, n =>
    if n < 10 then [Char.ofNat (48 + n)]
    else natDigitsAux fuel (n / 10) ++ [Char.ofNat (48 + n % 10)]

/-- Decimal digit characters of `n`, most significant first. -/
def natDigits (n : Nat) : List Char :=
  natDigitsAux (n + 1) n

/-- Exactly-two-digit rendering of a fractional cent count `m < 100`. -/
def twoDigits (m : Nat) : List Char :=
  [Char.ofNat (48 + m / 10 % 10), Char.ofNat (48 + m % 10)]

/-- Modelled from the spec (§4.6) and the standard library boundary: the
external rendering of a `Decimal` by `format!` with precision 2, which
prints the value with exactly two fractional digits, rounding the third
decimal digit away when it is 5 or more (sign handled on the magnitude).
Modelled as sign, then digits of the rounded cent count split at the cent
boundary by a literal dot. -/
def format_fixed2 (amount : Decimal) : List Char :=
  let cents : Nat := (round (|amount| * 100)).toNat
  (if amount < 0 then ['-'] else []) ++ natDigits (cents / 100) ++ '.' :: twoDigits (cents % 100)

/-- Position of the first `'.'` in a character list, the list's length when
absent: Rust's `str::find('.').unwrap_or(len)`. -/
def findDot (s : List Char) : Nat :=
  List.findIdx (fun c => c = '.') s

/-- One `String::insert(pos, ',')` at a byte index (all characters in play are
ASCII, so byte and character indices agree). -/
def insertAt (pos : Nat) (c : Char) (s : List Char) : List Char :=
  s.take pos ++ c :: s.drop pos

/-- The comma-insertion loop of `format_money`:
while pos exceeds 3, decrement pos by 3 and insert a comma there. -/
def insertCommas (s : List Char) (pos : Nat) : List Char :=
  if 3 < pos then insertCommas (insertAt (pos - 3) ',' s) (pos - 3) else s
termination_by pos
decreasing_by omega

/-- Embedding of `format_money`: render with two fractional digits, insert thousands
commas into the integer part right-to-left, prefix `"$"`. -/
def format_money (amount : Decimal) : String :=
  let str_amount := format_fixed2 amount
  let decimal_pos := findDot str_amount
  ⟨'$' :: insertCommas str_amount decimal_pos⟩

/-- Spec-side thousands grouping, on the reversed digit list: a comma after
every complete group of three digits that is followed by at least one more
digit. -/
def group3Rev : List Char → List Char
  | d1 :: d2 :: d3 :: d4 :: rest => d1 :: d2 :: d3 :: ',' :: group3Rev (d4 :: rest)
  | l => l

/-- Spec-side thousands grouping of a most-significant-first digit list:
commas separate every three digits counted from the right. -/
def group3 (l : List Char) : List Char :=
  (group3Rev l.reverse).reverse

/-- Spec-side money rendering (§4.6): currency symbol, comma-grouped integer
part of the rounded cent count, a dot, exactly two fractional digits. -/
def money_spec (amount : Decimal) : String :=
  let cents : Nat := (round (amount * 100)).toNat
  ⟨'$' :: (group3 (natDigits (cents / 100)) ++ '.' :: twoDigits (cents % 100))⟩

/-- Spec-side eligibility (§4.4): `true` iff the borrower's score is at least
the lender's minimum. -/
def isEligible (bank : Bank) (credit_score : Nat) : Bool :=
  bank.min_credit_score ≤ credit_score

/-- Spec-side base rate (§4.4): midpoint of the category's rate range. -/
def baseRate (bank : Bank) (category : LoanType) : Decimal :=
  ((bank.get_rate_range category).1 + (bank.get_rate_range category).2) / 2

/-- Spec-side quote construction (§4.5, as restated by the claim): adjusted
midpoint rate, the payment formula, `totalPayment = monthlyPayment × term × 12`
and `totalInterest = totalPayment − principal`. -/
def mkQuoteSpec (bank : Bank) (category : LoanType) (principal : Decimal)
    (term : Nat) (credit_score : Nat) : QuoteResult :=
  let adjustedRate := adjust_rate_for_credit (baseRate bank category) credit_score
  let monthlyPayment := calculate_monthly_payment principal adjustedRate term
  let totalPayment := monthlyPayment * (term : Decimal) * 12
  { name := bank.name
    adjusted_rate := adjustedRate
    monthly_payment := monthlyPayment
    total_interest := totalPayment - principal
    total_payment := totalPayment }

/-! ## Correctness of the binary-exponentiation loop -/

theorem powLoop_eq (e : Nat) : ∀ r b : Decimal, powLoop r b e = r * b ^ e := by
  induction e using Nat.strong_induction_on with
  | _ e ih =>
    intro r b
    rw [powLoop]
    by_cases h : e = 0
    · simp [h]
    · rw [if_neg h, ih (e / 2) (Nat.div_lt_self (Nat.pos_of_ne_zero h) one_lt_two)]
      obtain ⟨q, hq⟩ : ∃ q, e / 2 = q := ⟨e / 2, rfl⟩
      rw [hq]
      have hbb : (b * b) ^ q = b ^ q * b ^ q := mul_pow b b q
      rcases Nat.mod_two_eq_zero_or_one e with hm | hm
      · rw [if_neg (by omega), hbb, ← pow_add, (by omega : q + q = e)]
      · rw [if_pos hm, hbb, (by omega : e = q + q + 1), pow_add, pow_add, pow_one]
        ring

theorem decimal_pow_eq_pow (b : Decimal) (e : Nat) : decimal_pow b e = b ^ e := by
  rw [decimal_pow, powLoop_eq, one_mul]

theorem powLoopFuel_eq (fuel : Nat) : ∀ (exp : Nat), exp < fuel → ∀ r b : Decimal,
    powLoopFuel fuel r b exp = some (powLoop r b exp) := by
  induction fuel with
  | zero => intro exp h; omega
  | succ n ih =>
    intro exp h r b
    rw [powLoopFuel, powLoop]
    by_cases he : exp = 0
    · simp [he]
    · rw [if_neg he, if_neg he, ih (exp / 2) (by omega)]

/-- C4: `decimal_pow` computed by the square-and-multiply loop equals the
`n`-fold product of the base; in particular it yields `1` at exponent `0`,
the base at exponent `1`, and `1` for base `1` at any exponent. -/
theorem decimal_pow_spec (b : Decimal) (n : Nat) :
    decimal_pow b n = (List.replicate n b).prod ∧
    decimal_pow b 0 = 1 ∧ decimal_pow b 1 = b ∧ decimal_pow 1 n = 1 := by
  refine ⟨?_, ?_, ?_, ?_⟩
  · rw [decimal_pow_eq_pow, List.prod_replicate]
  · rw [decimal_pow_eq_pow, pow_zero]
  · rw [decimal_pow_eq_pow, pow_one]
  · rw [decimal_pow_eq_pow, one_pow]

/-- C9: the loop of `decimal_pow` terminates on every input — the exponent
strictly decreases at each iteration (halving), and a fuel allowance of
`e + 1` iterations always suffices for the fuel-instrumented loop to exit
and return the loop's value. -/
theorem decimal_pow_total (b : Decimal) (e : Nat) :
    (0 < e → e / 2 < e) ∧ powLoopFuel (e + 1) 1 b e = some (decimal_pow b e) := by
  refine ⟨fun h => Nat.div_lt_self h one_lt_two, ?_⟩
  rw [powLoopFuel_eq (e + 1) e (Nat.lt_succ_self e), decimal_pow]

/-- Witness for C9 at base `2`, exponent `5`. -/
theorem decimal_pow_total_witness :
    (5 : Nat) / 2 < 5 ∧ powLoopFuel 6 1 (2 : Decimal) 5 = some (decimal_pow 2 5) :=
  ⟨(decimal_pow_total (2 : Decimal) 5).1 (by norm_num), (decimal_pow_total (2 : Decimal) 5).2⟩

/-! ## The payment formula -/

theorem calculate_monthly_payment_eq (P R : Decimal) (T : Nat) :
    calculate_monthly_payment P R T =
      if (1 + R / 100 / 12) ^ (12 * T) = 1 then P / ((12 * T : Nat) : Decimal)
      else P * ((R / 100 / 12 * (1 + R / 100 / 12) ^ (12 * T)) /
        ((1 + R / 100 / 12) ^ (12 * T) - 1)) := by
  simp only [calculate_monthly_payment, decimal_pow_eq_pow, Nat.mul_comm T 12]

/-- C1: for principal `P > 0`, annual percent rate `R` and term
`T ∈ [1, 30]`, with `monthlyRate = R/100/12` and
`growth = power(1 + monthlyRate, 12T)`, the payment is `P / (12T)` when
`growth = 1` (in particular when `R = 0`), and otherwise
`P * (monthlyRate * growth) / (growth - 1)`, in exact decimal arithmetic. -/
theorem calculate_monthly_payment_cases (P R : Decimal) (T : Nat)
    (hP : 0 < P) (hT1 : 1 ≤ T) (hT2 : T ≤ 30) :
    ((1 + R / 100 / 12) ^ (12 * T) = 1 →
      calculate_monthly_payment P R T = P / ((12 * T : Nat) : Decimal)) ∧
    ((1 + R / 100 / 12) ^ (12 * T) ≠ 1 →
      calculate_monthly_payment P R T =
        P * (R / 100 / 12 * (1 + R / 100 / 12) ^ (12 * T)) /
          ((1 + R / 100 / 12) ^ (12 * T) - 1)) ∧
    (R = 0 → calculate_monthly_payment P R T = P / ((12 * T : Nat) : Decimal)) := by
  refine ⟨?_, ?_, ?_⟩
  · intro h
    rw [calculate_monthly_payment_eq, if_pos h]
  · intro h
    rw [calculate_monthly_payment_eq, if_neg h]
    ring
  · intro h
    subst h
    rw [calculate_monthly_payment_eq]
    norm_num

/-- Witness for C1: a zero-rate 10-year loan of 1200 pays 10 per month. -/
theorem calculate_monthly_payment_cases_witness :
    calculate_monthly_payment 1200 0 10 = 10 := by
  have h := (calculate_monthly_payment_cases 1200 0 10 (by norm_num) (by norm_num)
    (by norm_num)).2.2 rfl
  rw [h]
  norm_num

/-- C7: the computed monthly payment is strictly positive for every positive
principal, non-negative rate and term in `[1, 30]`. -/
theorem calculate_monthly_payment_pos (P R : Decimal) (T : Nat)
    (hP : 0 < P) (hR : 0 ≤ R) (hT1 : 1 ≤ T) (hT2 : T ≤ 30) :
    0 < calculate_monthly_payment P R T := by
  have hmr : 0 ≤ R / 100 / 12 := by positivity
  have hg : (1 : Decimal) ≤ (1 + R / 100 / 12) ^ (12 * T) := by
    have h1 : ((1 : Decimal)) ^ (12 * T) ≤ (1 + R / 100 / 12) ^ (12 * T) :=
      pow_le_pow_left₀ (by norm_num) (by linarith) (12 * T)
    rwa [one_pow] at h1
  rw [calculate_monthly_payment_eq]
  split_ifs with h
  · apply div_pos hP
    have : (0 : Nat) < 12 * T := by omega
    exact_mod_cast this
  · have hglt : (1 : Decimal) < (1 + R / 100 / 12) ^ (12 * T) := lt_of_le_of_ne hg (Ne.symm h)
    have hm0 : 0 < R / 100 / 12 := by
      rcases eq_or_lt_of_le hmr with he | hlt
      · exfalso
        apply h
        rw [← he, add_zero, one_pow]
      · exact hlt
    have hgpos : (0 : Decimal) < (1 + R / 100 / 12) ^ (12 * T) := lt_trans one_pos hglt
    exact mul_pos hP (div_pos (mul_pos hm0 hgpos) (by linarith))

/-- Witness for C7 at principal 250000, rate 6, term 30. -/
theorem calculate_monthly_payment_pos_witness :
    0 < calculate_monthly_payment 250000 6 30 :=
  calculate_monthly_payment_pos 250000 6 30 (by norm_num) (by norm_num) (by norm_num)
    (by norm_num)

/-! ## The credit-score rate adjustment -/

/-- C3: on the contract domain `[300, 850]`, `adjust_rate_for_credit` is the
six-band step function with lower-inclusive boundaries (bands tested
top-down, first match wins). -/
theorem adjust_rate_bands (r : Decimal) (s : Nat) (h1 : 300 ≤ s) (h2 : s ≤ 850) :
    (800 ≤ s → adjust_rate_for_credit r s = r - 0.5) ∧
    (750 ≤ s ∧ s ≤ 799 → adjust_rate_for_credit r s = r - 0.25) ∧
    (700 ≤ s ∧ s ≤ 749 → adjust_rate_for_credit r s = r) ∧
    (650 ≤ s ∧ s ≤ 699 → adjust_rate_for_credit r s = r + 0.5) ∧
    (600 ≤ s ∧ s ≤ 649 → adjust_rate_for_credit r s = r + 1.0) ∧
    (s < 600 → adjust_rate_for_credit r s = r + 2.0) := by
  unfold adjust_rate_for_credit
  refine ⟨?_, ?_, ?_, ?_, ?_, ?_⟩ <;> intro h <;> split_ifs <;> first | rfl | omega

/-- Witness for C3 at base rate `10`, score `775` (second band). -/
theorem adjust_rate_bands_witness : adjust_rate_for_credit 10 775 = 10 - 0.25 :=
  (adjust_rate_bands 10 775 (by norm_num) (by norm_num)).2.1 ⟨by norm_num, by norm_num⟩

/-- C10: `adjust_rate_for_credit` is total on the whole `u16` domain — any
score above 850 falls in the top band (base − 0.5) and any score below 300
falls in the bottom band (base + 2.0); no input errors. -/
theorem adjust_rate_total_u16 (r : Decimal) (s : Nat) (hs : s ≤ 65535) :
    (850 < s → adjust_rate_for_credit r s = r - 0.5) ∧
    (s < 300 → adjust_rate_for_credit r s = r + 2.0) := by
  unfold adjust_rate_for_credit
  refine ⟨?_, ?_⟩ <;> intro h <;> split_ifs <;> first | rfl | omega

/-- Witness for C10 at score `65535` (top band) applied at base rate `7`. -/
theorem adjust_rate_total_u16_witness : adjust_rate_for_credit 7 65535 = 7 - 0.5 :=
  (adjust_rate_total_u16 7 65535 (by norm_num)).1 (by norm_num)

/-! ## The minimum-required-score fallback -/

theorem list_min_eq_none {l : List Nat} (h : list_min l = none) : l = [] := by
  cases l with
  | nil => rfl
  | cons a as =>
    exfalso
    cases hme : list_min as <;> simp [list_min, hme] at h

theorem list_min_le {l : List Nat} {m : Nat} (h : list_min l = some m) :
    ∀ x ∈ l, m ≤ x := by
  induction l generalizing m with
  | nil => simp [list_min] at h
  | cons a as ih =>
    intro x hx
    cases hme : list_min as with
    | none =>
      simp only [list_min, hme, Option.some.injEq] at h
      have has := list_min_eq_none hme
      subst has
      rcases List.mem_cons.1 hx with hxa | hxm
      · omega
      · exact absurd hxm (List.not_mem_nil x)
    | some m₀ =>
      simp only [list_min, hme, Option.some.injEq] at h
      rcases List.mem_cons.1 hx with hxa | hxm
      · subst hxa
        omega
      · have hle := ih hme x hxm
        omega

theorem list_min_mem {l : List Nat} {m : Nat} (h : list_min l = some m) : m ∈ l := by
  induction l generalizing m with
  | nil => simp [list_min] at h
  | cons a as ih =>
    cases hme : list_min as with
    | none =>
      simp only [list_min, hme, Option.some.injEq] at h
      subst h
      exact List.mem_cons_self a as
    | some m₀ =>
      simp only [list_min, hme, Option.some.injEq] at h
      rcases Nat.le_total a m₀ with hle | hle
      · rw [min_eq_left hle] at h
        subst h
        exact List.mem_cons_self a as
      · rw [min_eq_right hle] at h
        subst h
        exact List.mem_cons_of_mem a (ih hme)

theorem list_min_isSome {l : List Nat} (h : l ≠ []) : ∃ m, list_min l = some m := by
  rcases l with _ | ⟨a, as⟩
  · exact absurd rfl h
  · cases hme : list_min as with
    | none => exact ⟨a, by simp [list_min, hme]⟩
    | some m₀ => exact ⟨min a m₀, by simp [list_min, hme]⟩

/-- C6: `get_min_credit_score` returns the minimum of the lenders' minimum
credit scores, and `300` on the empty lender list (a fallback, not an
error). -/
theorem get_min_credit_score_spec (banks : List Bank) :
    get_min_credit_score [] = 300 ∧
    (∀ b ∈ banks, get_min_credit_score banks ≤ b.min_credit_score) ∧
    (banks ≠ [] → ∃ b ∈ banks, get_min_credit_score banks = b.min_credit_score) := by
  refine ⟨rfl, ?_, ?_⟩
  · intro b hb
    have hne : banks.map Bank.min_credit_score ≠ [] := by
      rcases banks with _ | ⟨c, cs⟩
      · exact absurd hb (List.not_mem_nil b)
      · simp
    obtain ⟨m, hm⟩ := list_min_isSome hne
    rw [get_min_credit_score, hm, Option.getD_some]
    exact list_min_le hm b.min_credit_score (List.mem_map_of_mem Bank.min_credit_score hb)
  · intro hne
    obtain ⟨m, hm⟩ := list_min_isSome (l := banks.map Bank.min_credit_score)
      (by simpa using hne)
    have hmem := list_min_mem hm
    rw [List.mem_map] at hmem
    obtain ⟨b, hb, hbm⟩ := hmem
    refine ⟨b, hb, ?_⟩
    rw [get_min_credit_score, hm, Option.getD_some, hbm]

/-- Witness for C6 on a concrete two-lender list. -/
theorem get_min_credit_score_spec_witness :
    get_min_credit_score [] = 300 ∧
    get_min_credit_score [bankA, bankB] ≤ bankB.min_credit_score ∧
    (∃ b ∈ [bankA, bankB], get_min_credit_score [bankA, bankB] = b.min_credit_score) :=
  ⟨(get_min_credit_score_spec [bankA, bankB]).1,
   (get_min_credit_score_spec [bankA, bankB]).2.1 bankB (by simp),
   (get_min_credit_score_spec [bankA, bankB]).2.2 (by simp)⟩

/-! ## The quote loop -/

/-- C2: the bank loop emits exactly one quote per lender whose minimum credit
score is at most the borrower's score, in the configured order (a filter
followed by a map, no sorting), and each quote uses the credit-adjusted
midpoint rate, `totalPayment = monthlyPayment × term × 12` and
`totalInterest = totalPayment − principal`. -/
theorem compute_quotes_spec (banks : List Bank) (lt : LoanType) (P : Decimal) (T s : Nat) :
    compute_quotes banks lt P T s =
      (banks.filter (fun b => isEligible b s)).map (fun b => mkQuoteSpec b lt P T s) := by
  induction banks with
  | nil => rfl
  | cons b bs ih =>
    simp only [compute_quotes] at ih ⊢
    rw [List.filterMap_cons, List.filter_cons]
    by_cases h : s < b.min_credit_score
    · have he : isEligible b s = false := by
        simp only [isEligible, decide_eq_false_iff_not]
        omega
      rw [if_pos h, he]
      simpa using ih
    · have he : isEligible b s = true := by
        simp only [isEligible, decide_eq_true_eq]
        omega
      rw [if_neg h, he]
      simp only [if_true, List.map_cons]
      rw [ih]
      congr 1
      simp only [mkQuoteSpec, baseRate, QuoteResult.mk.injEq]
      refine ⟨trivial, trivial, trivial, ?_, ?_⟩ <;> push_cast <;> ring

/-! ## The no-qualifying-lender outcome -/

/-- C5: when no configured lender accepts the borrower's score, the run
produces a distinct report carrying the minimum required credit score (and
the custom-rate suggestion) instead of a silent empty table; the run still
completes and, because the reported minimum exceeds the score exactly when
some lender is configured, the outcome is distinguishable from an empty
lender list (whose fallback report, 300, never exceeds a valid score). -/
theorem no_qualifying_distinct (banks : List Bank) (lt : LoanType) (P : Decimal) (T s : Nat)
    (hs : 300 ≤ s) (hno : ∀ b ∈ banks, s < b.min_credit_score) :
    (run_calculator banks lt P T s).no_qualifying_report =
      some (get_min_credit_score banks) ∧
    (run_calculator banks lt P T s).quotes = [] ∧
    (banks = [] ↔ get_min_credit_score banks ≤ s) := by
  have hflag : has_qualifying_banks banks s = false := by
    simp only [has_qualifying_banks, List.any_eq_false]
    intro b hb
    simpa using hno b hb
  refine ⟨?_, ?_, ?_, ?_⟩
  · simp [run_calculator, hflag]
  · simp only [run_calculator, compute_quotes, List.filterMap_eq_nil_iff]
    intro b hb
    rw [if_pos (hno b hb)]
  · rintro rfl
    simp only [get_min_credit_score, List.map_nil, list_min, Option.getD_none]
    omega
  · intro hle
    by_contra hne
    obtain ⟨m, hm⟩ := list_min_isSome (l := banks.map Bank.min_credit_score)
      (by simpa using hne)
    have hmem := list_min_mem hm
    rw [List.mem_map] at hmem
    obtain ⟨b, hb, hbm⟩ := hmem
    have hsb := hno b hb
    rw [get_min_credit_score, hm, Option.getD_some] at hle
    omega

/-- Witness for C5: score 600 against the two fixture lenders (minimums 700
and 640). -/
theorem no_qualifying_distinct_witness :
    (run_calculator [bankA, bankB] LoanType.Home 100000 30 600).no_qualifying_report =
      some (get_min_credit_score [bankA, bankB]) ∧
    (run_calculator [bankA, bankB] LoanType.Home 100000 30 600).quotes = [] ∧
    ([bankA, bankB] = ([] : List Bank) ↔ get_min_credit_score [bankA, bankB] ≤ 600) := by
  refine no_qualifying_distinct [bankA, bankB] LoanType.Home 100000 30 600 (by norm_num) ?_
  intro b hb
  simp only [List.mem_cons, List.not_mem_nil, or_false] at hb
  rcases hb with h | h <;> subst h <;> simp [bankA, bankB]

/-! ## Currency formatting -/

theorem insertCommas_stop {s : List Char} {pos : Nat} (h : pos ≤ 3) :
    insertCommas s pos = s := by
  rw [insertCommas, if_neg (by omega)]

theorem insertCommas_step {s : List Char} {pos : Nat} (h : 3 < pos) :
    insertCommas s pos = insertCommas (insertAt (pos - 3) ',' s) (pos - 3) := by
  rw [insertCommas, if_pos h]

theorem natDigitsAux_digit_range : ∀ (fuel n : Nat), ∀ c ∈ natDigitsAux fuel n,
    48 ≤ c.toNat ∧ c.toNat ≤ 57 := by
  intro fuel
  induction fuel with
  | zero => intro n c hc; simp [natDigitsAux] at hc
  | succ f ih =>
    intro n c hc
    rw [natDigitsAux] at hc
    by_cases h : n < 10
    · rw [if_pos h] at hc
      simp only [List.mem_singleton] at hc
      subst hc
      interval_cases n <;> decide
    · rw [if_neg h] at hc
      rcases List.mem_append.1 hc with h1 | h1
      · exact ih (n / 10) c h1
      · simp only [List.mem_singleton] at h1
        subst h1
        have h10 : n % 10 < 10 := Nat.mod_lt n (by norm_num)
        obtain ⟨d, hd⟩ : ∃ d, n % 10 = d := ⟨n % 10, rfl⟩
        rw [hd]
        rw [hd] at h10
        interval_cases d <;> decide

theorem natDigits_no_dot (n : Nat) : ∀ c ∈ natDigits n, ¬(c = '.') := by
  intro c hc he
  have hr := natDigitsAux_digit_range (n + 1) n c hc
  subst he
  revert hr
  decide

theorem findIdx_dot_append (l rest : List Char) (h : ∀ c ∈ l, ¬(c = '.')) :
    List.findIdx (fun c => c = '.') (l ++ '.' :: rest) = l.length := by
  induction l with
  | nil => simp [List.findIdx_cons]
  | cons a as ih =>
    rw [List.cons_append, List.findIdx_cons]
    have ha : ¬(a = '.') := h a (List.mem_cons_self a as)
    simp only [ha, decide_False, cond_false, List.length_cons]
    rw [ih (fun c hc => h c (List.mem_cons_of_mem a hc))]

theorem findDot_append (l rest : List Char) (h : ∀ c ∈ l, ¬(c = '.')) :
    findDot (l ++ '.' :: rest) = l.length := by
  rw [findDot]
  exact findIdx_dot_append l rest h

theorem group3Rev_four (a b c d : Char) (rest : List Char) :
    group3Rev (a :: b :: c :: d :: rest) = a :: b :: c :: ',' :: group3Rev (d :: rest) := rfl

theorem group3Rev_short {l : List Char} (h : l.length ≤ 3) : group3Rev l = l := by
  rcases l with _ | ⟨a, _ | ⟨b, _ | ⟨c, _ | ⟨d, rest⟩⟩⟩⟩
  · rfl
  · rfl
  · rfl
  · rfl
  · exfalso
    simp only [List.length_cons] at h
    omega

theorem group3_split (l : List Char) (h : 3 < l.length) :
    group3 l = group3 (l.take (l.length - 3)) ++ ',' :: l.drop (l.length - 3) := by
  have hd3 : (l.drop (l.length - 3)).length = 3 := by
    rw [List.length_drop]
    omega
  obtain ⟨d1, d2, d3, hd⟩ := List.length_eq_three.1 hd3
  have hsplit : l = l.take (l.length - 3) ++ [d1, d2, d3] := by
    conv_lhs => rw [← List.take_append_drop (l.length - 3) l]
    rw [hd]
  have htklen : (l.take (l.length - 3)).length = l.length - 3 := by
    rw [List.length_take]
    omega
  rcases htk : (l.take (l.length - 3)).reverse with _ | ⟨e, rest⟩
  · exfalso
    have h0 : (l.take (l.length - 3)).length = 0 := by
      rw [← List.length_reverse, htk]
      rfl
    omega
  · have hrev : l.reverse = d3 :: d2 :: d1 :: e :: rest := by
      conv_lhs => rw [hsplit]
      rw [List.reverse_append, htk]
      rfl
    rw [group3, hrev, group3Rev_four, group3, htk, hd]
    simp [List.reverse_cons, List.append_assoc]

theorem insertCommas_spec : ∀ (n : Nat), ∀ (l : List Char), l.length = n →
    ∀ suffix, insertCommas (l ++ suffix) l.length = group3 l ++ suffix := by
  intro n
  induction n using Nat.strong_induction_on with
  | _ n ih =>
    intro l hl suffix
    by_cases h3 : l.length ≤ 3
    · rw [insertCommas_stop h3]
      rw [group3, group3Rev_short (by simpa using h3), List.reverse_reverse]
    · push_neg at h3
      rw [insertCommas_step h3]
      have hins : insertAt (l.length - 3) ',' (l ++ suffix) =
          l.take (l.length - 3) ++ ',' :: (l.drop (l.length - 3) ++ suffix) := by
        rw [insertAt, List.take_append_of_le_length (by omega),
          List.drop_append_of_le_length (by omega)]
      have htklen : (l.take (l.length - 3)).length = l.length - 3 := by
        rw [List.length_take]
        omega
      have hrec := ih (l.length - 3) (by omega) (l.take (l.length - 3)) htklen
        (',' :: (l.drop (l.length - 3) ++ suffix))
      rw [htklen] at hrec
      rw [hins, hrec, group3_split l h3, List.append_assoc]
      rfl

theorem format_money_eq_money_spec (a : Decimal) (ha : 0 ≤ a) :
    format_money a = money_spec a := by
  have hnlt : ¬a < 0 := not_lt.2 ha
  have hfa : format_fixed2 a =
      natDigits ((round (a * 100)).toNat / 100) ++
        '.' :: twoDigits ((round (a * 100)).toNat % 100) := by
    simp only [format_fixed2, if_neg hnlt, abs_of_nonneg ha, List.nil_append]
  simp only [format_money, money_spec, hfa]
  rw [findDot_append _ _ (natDigits_no_dot _),
    insertCommas_spec (natDigits ((round (a * 100)).toNat / 100)).length _ rfl]

/-- C8: for every non-negative amount, `format_money` renders a leading `"$"`,
the comma-grouped (every three digits) integer part of the amount rounded to
cents, and exactly two fractional digits; the spec's three example values
hold, and a negative input is still rendered without failing. -/
theorem format_money_correct :
    (∀ a : Decimal, 0 ≤ a → format_money a = money_spec a) ∧
    format_money 1234567.5 = "$1,234,567.50" ∧
    format_money 0 = "$0.00" ∧
    format_money 999.999 = "$1,000.00" ∧
    format_money (-1234.5) = "$-1,234.50" := by
  refine ⟨format_money_eq_money_spec, ?_, ?_, ?_, ?_⟩
  · rw [format_money_eq_money_spec _ (by norm_num)]
    have h1 : round ((1234567.5 : ℚ) * 100) = 123456750 := by
      rw [round_eq, Int.floor_eq_iff] <;> norm_num
    simp only [money_spec, h1]
    decide
  · rw [format_money_eq_money_spec _ (by norm_num)]
    have h1 : round ((0 : ℚ) * 100) = 0 := by
      rw [round_eq, Int.floor_eq_iff] <;> norm_num
    simp only [money_spec, h1]
    decide
  · rw [format_money_eq_money_spec _ (by norm_num)]
    have h1 : round ((999.999 : ℚ) * 100) = 100000 := by
      rw [round_eq, Int.floor_eq_iff] <;> norm_num
    simp only [money_spec, h1]
    decide
  · have hneg : (-1234.5 : ℚ) < 0 := by norm_num
    have habs : |(-1234.5 : ℚ)| * 100 = 123450 := by
      rw [abs_of_neg hneg]
      norm_num
    have hr : round ((123450 : ℚ)) = 123450 := by
      rw [round_eq, Int.floor_eq_iff] <;> norm_num
    have hf : format_fixed2 (-1234.5) = ['-', '1', '2', '3', '4', '.', '5', '0'] := by
      simp only [format_fixed2]
      rw [if_pos hneg, habs, hr]
      decide
    simp only [format_money, hf]
    rw [(by decide : findDot ['-', '1', '2', '3', '4', '.', '5', '0'] = 5)]
    rw [insertCommas_step (by norm_num), insertCommas_stop (by norm_num)]
    decide

/-- Witness for C8's non-negative rendering clause at amount `2.5`. -/
theorem format_money_correct_witness : format_money 2.5 = money_spec 2.5 :=
  format_money_correct.1 2.5 (by norm_num)
